import Mathlib

/-!
Shallow embedding of the notion-core hook resolution engine
(src/crates/notion-core/src/hook/tool.rs) and of the session orchestration
layer (src/crates/notion-core/src/session.rs).

Strings are modelled with Lean `String`; the Rust string primitives used by
the source (`str::replace`, `str::trim`, whitespace word splitting) are
re-implemented over `List Char` so that every definition evaluates by `decide`.
External collaborators (inventory, toolchain, project manifest, the spawned
hook process) are modelled as an explicit `World` of oracle functions, and
each session operation returns its result together with the updated session
state and a trace of collaborator effects.
-/

/-- Model of `semver::Version` restricted to its `major.minor.patch` core
(pre-release and build metadata are not used by any claim). -/
structure Version where
  major : Nat
  minor : Nat
  patch : Nat
deriving DecidableEq

/-- Canonical string form of a version, as produced by `Version::to_string()`. -/
def Version.toString (v : Version) : String :=
  s!"{v.major}.{v.minor}.{v.patch}"

/-- Fuel-indexed core of Rust `str::replace`: replaces every non-overlapping
occurrence of `pat` in the haystack, scanning left to right. The fuel is
always instantiated with the haystack length, which suffices because every
step consumes at least one character. -/
def replGo (pat rep : List Char) : Nat → List Char → List Char
  | _, [] => []
  | 0, hay => hay
  | fuel + 1, c :: rest =>
    if pat.isPrefixOf (c :: rest) && !pat.isEmpty then
      rep ++ replGo pat rep fuel (List.drop (pat.length - 1) rest)
    else
      c :: replGo pat rep fuel rest

/-- Rust `str::replace` over character lists. -/
def replaceL (pat rep hay : List Char) : List Char :=
  replGo pat rep hay.length hay

/-- Rust `s.replace(pat, rep)` on strings. -/
def rustReplace (s pat rep : String) : String :=
  ⟨replaceL pat.data rep.data s.data⟩

/-- Rust `str::trim`: strips leading and trailing whitespace. -/
def rustTrim (s : String) : String :=
  ⟨((s.data.dropWhile Char.isWhitespace).reverse.dropWhile Char.isWhitespace).reverse⟩

/-- Modelled from the spec: the external `cmdline_words_parser` collaborator is
not among the repository sources; per spec §4.1 and the §9 open question it is
shell-like word splitting on whitespace, modelled here as plain
whitespace-separated tokens (accumulator holds the current word reversed). -/
def splitWordsGo (cur : List Char) : List Char → List (List Char)
  | [] => if cur.isEmpty then [] else [cur.reverse]
  | c :: rest =>
    if c.isWhitespace then
      if cur.isEmpty then splitWordsGo [] rest
      else cur.reverse :: splitWordsGo [] rest
    else splitWordsGo (c :: cur) rest

/-- The word lexer applied to a command string (`StrExt::parse_cmdline_words`). -/
def parse_cmdline_words (s : String) : List String :=
  (splitWordsGo [] s.data).map String.mk

/-- The error taxonomy reaching the embedded core: `NotInPackageError`
(session.rs, a `ConfigurationError`), `InvalidCommandError` (hook/tool.rs),
and unclassified collaborator failures (`.unknown()` in the source). -/
inductive NotionError where
  | notInPackage
  | invalidCommand (command : String)
  | unknown (message : String)
deriving DecidableEq

/-- The `fail(display = ...)` strings of the error types. -/
def NotionError.display : NotionError → String
  | .notInPackage => "Not in a node package"
  | .invalidCommand command => "Invalid hook command: " ++ command
  | .unknown message => message

/-- Decidable equality of fallible results, used to evaluate concrete
instances. -/
instance exceptDecEq {ε α : Type} [DecidableEq ε] [DecidableEq α] :
    DecidableEq (Except ε α)
  | .ok x, .ok y =>
    if h : x = y then isTrue (h ▸ rfl) else isFalse (fun hc => h (Except.ok.inj hc))
  | .ok _, .error _ => isFalse (fun hc => Except.noConfusion hc)
  | .error _, .ok _ => isFalse (fun hc => Except.noConfusion hc)
  | .error x, .error y =>
    if h : x = y then isTrue (h ▸ rfl)
    else isFalse (fun hc => h (Except.error.inj hc))

/-- A spawned external command: program name and argument list, as handed to
`Command::new(cmd).args(&args)` in `execute_binary`. -/
structure Invocation where
  cmd : String
  args : List String
deriving DecidableEq

/-- Ambient data of hook resolution: the platform identifier constants
`path::ARCH` and `path::OS` (compile-time constants of the platform the tool
was built for) and the external process spawner, which returns the captured
stdout or an unclassified failure. -/
structure ResolveEnv where
  arch : String
  os : String
  runner : Invocation → Except NotionError String

/-- `execute_binary` of hook/tool.rs: trims the command string, lexes it into
program and arguments, fails with `InvalidCommandError` when no program name
can be extracted, appends the optional trailing argument, spawns the program
and returns its trimmed stdout. -/
def execute_binary (env : ResolveEnv) (bin : String) (extra_arg : Option String) :
    Except NotionError String :=
  let trimmed := rustTrim bin
  match parse_cmdline_words trimmed with
  | [] => .error (.invalidCommand trimmed)
  | cmd :: args0 =>
    let args :=
      match extra_arg with
      | some arg => args0 ++ [arg]
      | none => args0
    match env.runner ⟨cmd, args⟩ with
    | .ok url => .ok (rustTrim url)
    | .error e => .error e

/-- `ARCH_TEMPLATE` of hook/tool.rs. -/
def ARCH_TEMPLATE : String := "{arch}"

/-- `OS_TEMPLATE` of hook/tool.rs. -/
def OS_TEMPLATE : String := "{os}"

/-- `VERSION_TEMPLATE` of hook/tool.rs. -/
def VERSION_TEMPLATE : String := "{version}"

/-- `DistroHook` of hook/tool.rs: a hook for resolving the distro URL of a
given tool version. -/
inductive DistroHook where
  | Prefix (p : String)
  | Template (t : String)
  | Bin (b : String)
deriving DecidableEq

/-- `DistroHook::resolve`: prefix concatenation, template substitution of
`{arch}`, `{os}` and `{version}` (in that order, via `str::replace`), or
delegation to an external command with the version string as trailing
argument. -/
def DistroHook.resolve (env : ResolveEnv) (h : DistroHook) (version : Version)
    (filename : String) : Except NotionError String :=
  match h with
  | .Prefix p => .ok (p ++ filename)
  | .Template t =>
    .ok (rustReplace (rustReplace (rustReplace t ARCH_TEMPLATE env.arch)
      OS_TEMPLATE env.os) VERSION_TEMPLATE version.toString)
  | .Bin b => execute_binary env b (some version.toString)

/-- `MetadataHook` of hook/tool.rs: a hook for resolving the URL of the
metadata index of a tool. -/
inductive MetadataHook where
  | Prefix (p : String)
  | Template (t : String)
  | Bin (b : String)
deriving DecidableEq

/-- `MetadataHook::resolve`: like the distro resolution but only `{arch}` and
`{os}` are substituted and the external command gets no trailing argument. -/
def MetadataHook.resolve (env : ResolveEnv) (h : MetadataHook) (filename : String) :
    Except NotionError String :=
  match h with
  | .Prefix p => .ok (p ++ filename)
  | .Template t =>
    .ok (rustReplace (rustReplace t ARCH_TEMPLATE env.arch) OS_TEMPLATE env.os)
  | .Bin b => execute_binary env b none

/-- `NodeVersion` of the distro collaborator: the runtime version together
with its bundled npm version (a version plus variant pair, spec §3). -/
structure NodeVersion where
  runtime : Version
  npm : Version
deriving DecidableEq

/-- `PlatformSpec`: one fully resolved toolchain snapshot (platform.rs). -/
structure PlatformSpec where
  node : NodeVersion
  yarn : Option Version
deriving DecidableEq

/-- `VersionSpec` of the version collaborator: an exact version or an opaque
semantic-version requirement. -/
inductive VersionSpec where
  | exact (v : Version)
  | req (spec : String)
deriving DecidableEq

/-- `Fetched` of the distro collaborator: whether the requested version was
already present locally or was fetched just now. -/
inductive Fetched (α : Type) where
  | already (v : α)
  | now (v : α)
deriving DecidableEq

/-- `Fetched::into_version`. -/
def Fetched.into_version {α : Type} : Fetched α → α
  | .already v => v
  | .now v => v

/-- A collection of locally fetched versions inside the inventory, supporting
the `contains` query of the collaborator interface (spec §6). -/
structure Collection where
  versions : List Version
deriving DecidableEq

/-- `contains(version)` of an inventory collection. -/
def Collection.contains (c : Collection) (v : Version) : Bool :=
  c.versions.contains v

/-- `Inventory`: the node and yarn collections of locally fetched versions. -/
structure Inventory where
  node : Collection
  yarn : Collection
deriving DecidableEq

/-- `Toolchain`: the user-level active tool versions (toolchain.rs). -/
structure Toolchain where
  node : Option NodeVersion
  yarn : Option Version
deriving DecidableEq

/-- `Toolchain::get_active_node`. -/
def Toolchain.get_active_node (t : Toolchain) : Option NodeVersion := t.node

/-- `Toolchain::get_active_yarn`. -/
def Toolchain.get_active_yarn (t : Toolchain) : Option Version := t.yarn

/-- `Toolchain::set_active_node`: writes the new user-level active node
version (persistence of the write is the collaborator's own effect). -/
def Toolchain.set_active_node (t : Toolchain) (v : NodeVersion) : Toolchain :=
  { t with node := some v }

/-- `Toolchain::set_active_yarn`. -/
def Toolchain.set_active_yarn (t : Toolchain) (v : Version) : Toolchain :=
  { t with yarn := some v }

/-- `Project`: the shared read-mostly project handle; only its pinned platform
spec is observed by the embedded core. -/
structure Project where
  platformSpec : Option PlatformSpec
deriving DecidableEq

/-- `Project::platform`: the pinned platform spec of the project, if any. -/
def Project.platform (p : Project) : Option PlatformSpec := p.platformSpec

/-- Modelled from the spec: the publish hook of the events section (hook
module, not among the sources) names where session telemetry is sent. -/
structure Publish where
  destination : String
deriving DecidableEq

/-- The events section of the hook collection, holding the optional publish
hook (`hooks.events.publish` in session.rs). -/
structure EventHooks where
  publish : Option Publish
deriving DecidableEq

/-- Modelled from the spec: per-tool hook block of the hook collection, one
optional distro hook and optional metadata hooks (spec §3, §6). -/
structure ToolHooks where
  distro : Option DistroHook
  latest : Option MetadataHook
  index : Option MetadataHook
deriving DecidableEq

/-- `Hooks`: the hook collection aggregating per-tool hooks and the optional
events section (spec §3; only `events` is read directly by session.rs). -/
structure Hooks where
  node : Option ToolHooks
  yarn : Option ToolHooks
  events : Option EventHooks
deriving DecidableEq

/-- Behaviour of the external collaborators during one session: the results
of loading the hooks configuration and the inventory, and the inventory
fetch routines (which consume the hook collection and return the fetched
version together with the updated inventory). -/
structure World where
  hooksLoad : Except NotionError Hooks
  inventoryLoad : Except NotionError Inventory
  fetchNode : VersionSpec → Hooks → Inventory → Except NotionError (Fetched NodeVersion × Inventory)
  fetchYarn : VersionSpec → Hooks → Inventory → Except NotionError (Fetched Version × Inventory)

/-- Observable collaborator effects of a session operation, in order. -/
inductive Effect where
  | hooksAccess
  | inventoryAccess
  | fetchNodeCall (spec : VersionSpec)
  | fetchYarnCall (spec : VersionSpec)
  | setActiveNode (v : NodeVersion)
  | setActiveYarn (v : Version)
  | pinProjectNode (v : NodeVersion)
  | pinProjectYarn (v : Version)
deriving DecidableEq

/-- Whether an effect is an invocation of an inventory fetch routine. -/
def Effect.isFetch : Effect → Bool
  | .fetchNodeCall _ => true
  | .fetchYarnCall _ => true
  | _ => false

/-- `Session` of session.rs: the lazily initialized hook collection and
inventory caches (`None` = not yet materialized), the user toolchain, the
optional project handle, and the event log (kept as recorded entries). -/
structure Session where
  hooks : Option Hooks
  inventory : Option Inventory
  toolchain : Toolchain
  project : Option Project
  eventLog : List String
deriving DecidableEq

/-- Outcome of one session operation: the fallible result, the session state
afterwards, and the trace of collaborator effects it performed. -/
structure Step (α : Type) where
  result : Except NotionError α
  session : Session
  trace : List Effect
deriving DecidableEq

/-- `LazyHooks::get` through the session (`self.hooks.get()`): returns the
memoized hook collection, loading it on first access. -/
def Session.hooksGet (w : World) (s : Session) : Step Hooks :=
  match s.hooks with
  | some h => ⟨.ok h, s, [.hooksAccess]⟩
  | none =>
    match w.hooksLoad with
    | .ok h => ⟨.ok h, { s with hooks := some h }, [.hooksAccess]⟩
    | .error e => ⟨.error e, s, [.hooksAccess]⟩

/-- `LazyInventory::get_mut` through the session (`self.inventory.get_mut()`). -/
def Session.inventoryGet (w : World) (s : Session) : Step Inventory :=
  match s.inventory with
  | some inv => ⟨.ok inv, s, [.inventoryAccess]⟩
  | none =>
    match w.inventoryLoad with
    | .ok inv => ⟨.ok inv, { s with inventory := some inv }, [.inventoryAccess]⟩
    | .error e => ⟨.error e, s, [.inventoryAccess]⟩

/-- `Session::user_node`. -/
def Session.user_node (s : Session) : Option NodeVersion :=
  s.toolchain.get_active_node

/-- `Session::user_yarn`. -/
def Session.user_yarn (s : Session) : Option Version :=
  s.toolchain.get_active_yarn

/-- `Session::project_platform`: the current project's pinned platform image,
if any. -/
def Session.project_platform (s : Session) : Option PlatformSpec :=
  match s.project with
  | some project => project.platform
  | none => none

/-- `Session::user_platform`: builds a platform spec from the user toolchain
when an active node version exists, attaching the active yarn version if
also set. -/
def Session.user_platform (s : Session) : Except NotionError (Option PlatformSpec) :=
  match s.user_node with
  | some node =>
    match s.user_yarn with
    | some yarn => .ok (some { node := node, yarn := some yarn })
    | none => .ok (some { node := node, yarn := none })
  | none => .ok none

/-- `Session::current_platform`: the project pin when present, else the user
platform. -/
def Session.current_platform (s : Session) : Except NotionError (Option PlatformSpec) :=
  match s.project_platform with
  | some image => .ok (some image)
  | none =>
    match s.user_platform with
    | .ok (some image) => .ok (some image)
    | .ok none => .ok none
    | .error e => .error e

/-- `Session::ensure_node`: obtains the inventory and, only when it does not
contain the exact version, obtains the hooks and fetches. -/
def Session.ensure_node (w : World) (s : Session) (version : Version) : Step Unit :=
  match Session.inventoryGet w s with
  | ⟨.error e, s1, t1⟩ => ⟨.error e, s1, t1⟩
  | ⟨.ok inventory, s1, t1⟩ =>
    if !(inventory.node.contains version) then
      match Session.hooksGet w s1 with
      | ⟨.error e, s2, t2⟩ => ⟨.error e, s2, t1 ++ t2⟩
      | ⟨.ok hooks, s2, t2⟩ =>
        match w.fetchNode (VersionSpec.exact version) hooks inventory with
        | .ok (_fetched, inventory2) =>
          ⟨.ok (), { s2 with inventory := some inventory2 },
            t1 ++ t2 ++ [.fetchNodeCall (VersionSpec.exact version)]⟩
        | .error e =>
          ⟨.error e, s2, t1 ++ t2 ++ [.fetchNodeCall (VersionSpec.exact version)]⟩
    else
      ⟨.ok (), s1, t1⟩

/-- `Session::ensure_yarn`. -/
def Session.ensure_yarn (w : World) (s : Session) (version : Version) : Step Unit :=
  match Session.inventoryGet w s with
  | ⟨.error e, s1, t1⟩ => ⟨.error e, s1, t1⟩
  | ⟨.ok inventory, s1, t1⟩ =>
    if !(inventory.yarn.contains version) then
      match Session.hooksGet w s1 with
      | ⟨.error e, s2, t2⟩ => ⟨.error e, s2, t1 ++ t2⟩
      | ⟨.ok hooks, s2, t2⟩ =>
        match w.fetchYarn (VersionSpec.exact version) hooks inventory with
        | .ok (_fetched, inventory2) =>
          ⟨.ok (), { s2 with inventory := some inventory2 },
            t1 ++ t2 ++ [.fetchYarnCall (VersionSpec.exact version)]⟩
        | .error e =>
          ⟨.error e, s2, t1 ++ t2 ++ [.fetchYarnCall (VersionSpec.exact version)]⟩
    else
      ⟨.ok (), s1, t1⟩

/-- `Session::fetch_node`: obtains inventory and hooks, then delegates to the
inventory fetch routine. -/
def Session.fetch_node (w : World) (s : Session) (matching : VersionSpec) :
    Step (Fetched NodeVersion) :=
  match Session.inventoryGet w s with
  | ⟨.error e, s1, t1⟩ => ⟨.error e, s1, t1⟩
  | ⟨.ok inventory, s1, t1⟩ =>
    match Session.hooksGet w s1 with
    | ⟨.error e, s2, t2⟩ => ⟨.error e, s2, t1 ++ t2⟩
    | ⟨.ok hooks, s2, t2⟩ =>
      match w.fetchNode matching hooks inventory with
      | .ok (fetched, inventory2) =>
        ⟨.ok fetched, { s2 with inventory := some inventory2 },
          t1 ++ t2 ++ [.fetchNodeCall matching]⟩
      | .error e => ⟨.error e, s2, t1 ++ t2 ++ [.fetchNodeCall matching]⟩

/-- `Session::fetch_yarn`. -/
def Session.fetch_yarn (w : World) (s : Session) (matching : VersionSpec) :
    Step (Fetched Version) :=
  match Session.inventoryGet w s with
  | ⟨.error e, s1, t1⟩ => ⟨.error e, s1, t1⟩
  | ⟨.ok inventory, s1, t1⟩ =>
    match Session.hooksGet w s1 with
    | ⟨.error e, s2, t2⟩ => ⟨.error e, s2, t1 ++ t2⟩
    | ⟨.ok hooks, s2, t2⟩ =>
      match w.fetchYarn matching hooks inventory with
      | .ok (fetched, inventory2) =>
        ⟨.ok fetched, { s2 with inventory := some inventory2 },
          t1 ++ t2 ++ [.fetchYarnCall matching]⟩
      | .error e => ⟨.error e, s2, t1 ++ t2 ++ [.fetchYarnCall matching]⟩

/-- `Session::install_node`: fetches, then writes the resolved version into
the user toolchain as the new active node version. -/
def Session.install_node (w : World) (s : Session) (matching : VersionSpec) : Step Unit :=
  match Session.inventoryGet w s with
  | ⟨.error e, s1, t1⟩ => ⟨.error e, s1, t1⟩
  | ⟨.ok inventory, s1, t1⟩ =>
    match Session.hooksGet w s1 with
    | ⟨.error e, s2, t2⟩ => ⟨.error e, s2, t1 ++ t2⟩
    | ⟨.ok hooks, s2, t2⟩ =>
      match w.fetchNode matching hooks inventory with
      | .ok (fetched, inventory2) =>
        ⟨.ok (),
          { s2 with inventory := some inventory2,
                    toolchain := s2.toolchain.set_active_node fetched.into_version },
          t1 ++ t2 ++ [.fetchNodeCall matching, .setActiveNode fetched.into_version]⟩
      | .error e => ⟨.error e, s2, t1 ++ t2 ++ [.fetchNodeCall matching]⟩

/-- `Session::install_yarn`. -/
def Session.install_yarn (w : World) (s : Session) (matching : VersionSpec) : Step Unit :=
  match Session.inventoryGet w s with
  | ⟨.error e, s1, t1⟩ => ⟨.error e, s1, t1⟩
  | ⟨.ok inventory, s1, t1⟩ =>
    match Session.hooksGet w s1 with
    | ⟨.error e, s2, t2⟩ => ⟨.error e, s2, t1 ++ t2⟩
    | ⟨.ok hooks, s2, t2⟩ =>
      match w.fetchYarn matching hooks inventory with
      | .ok (fetched, inventory2) =>
        ⟨.ok (),
          { s2 with inventory := some inventory2,
                    toolchain := s2.toolchain.set_active_yarn fetched.into_version },
          t1 ++ t2 ++ [.fetchYarnCall matching, .setActiveYarn fetched.into_version]⟩
      | .error e => ⟨.error e, s2, t1 ++ t2 ++ [.fetchYarnCall matching]⟩

/-- `Session::pin_node_version`: requires a project, else fails with
`NotInPackageError` before touching any collaborator; with a project it
fetches and then pins the resolved version into the project manifest. -/
def Session.pin_node_version (w : World) (s : Session) (matching : VersionSpec) : Step Unit :=
  match s.project with
  | some _project =>
    match Session.fetch_node w s matching with
    | ⟨.ok fetched, s1, t1⟩ =>
      ⟨.ok (), s1, t1 ++ [.pinProjectNode fetched.into_version]⟩
    | ⟨.error e, s1, t1⟩ => ⟨.error e, s1, t1⟩
  | none => ⟨.error .notInPackage, s, []⟩

/-- `Session::pin_yarn_version`. -/
def Session.pin_yarn_version (w : World) (s : Session) (matching : VersionSpec) : Step Unit :=
  match s.project with
  | some _project =>
    match Session.fetch_yarn w s matching with
    | ⟨.ok fetched, s1, t1⟩ =>
      ⟨.ok (), s1, t1 ++ [.pinProjectYarn fetched.into_version]⟩
    | ⟨.error e, s1, t1⟩ => ⟨.error e, s1, t1⟩
  | none => ⟨.error .notInPackage, s, []⟩

/-- `publish_plugin` of session.rs: resolves the hook collection and extracts
the publish hook of its events section. -/
def publish_plugin (w : World) (s : Session) : Step (Option Publish) :=
  match Session.hooksGet w s with
  | ⟨.ok hooks, s1, t1⟩ =>
    ⟨.ok (match hooks.events with
          | some events => events.publish
          | none => none), s1, t1⟩
  | ⟨.error e, s1, t1⟩ => ⟨.error e, s1, t1⟩

/-- Exit codes are observed numerically (`ExitCode::exit` / `process::exit`). -/
abbrev ExitCode := Int

/-- Observable outcome of the exit protocol: the code the process terminates
with, the warning printed to stderr (if any), and whether the event log was
handed a publish plugin (and which). -/
structure ExitOutcome where
  code : Int
  warning : Option String
  published : Option (Option Publish)
deriving DecidableEq

/-- `Session::publish_to_event_log`: publishes through the event log when the
hook collection resolves, and downgrades a resolution failure to a printed
warning. Returns (warning, published plugin). -/
def Session.publish_to_event_log (w : World) (s : Session) :
    Option String × Option (Option Publish) :=
  match publish_plugin w s with
  | ⟨.ok plugin, _, _⟩ => (none, some plugin)
  | ⟨.error e, _, _⟩ =>
    (some ("Warning: invalid config file (" ++ NotionError.display e ++ ")"), none)

/-- `Session::exit`: publishes to the event log, then terminates with the
given code. -/
def Session.exit (w : World) (s : Session) (code : ExitCode) : ExitOutcome :=
  let p := Session.publish_to_event_log w s
  { code := code, warning := p.1, published := p.2 }

/-- `Session::exit_tool`: publishes to the event log, then terminates with the
given tool exit code. -/
def Session.exit_tool (w : World) (s : Session) (code : Int) : ExitOutcome :=
  let p := Session.publish_to_event_log w s
  { code := code, warning := p.1, published := p.2 }

/-- The first substitution of `subs` whose (non-empty) token is a prefix of
the haystack. -/
def findSub (subs : List (List Char × List Char)) (hay : List Char) :
    Option (List Char × List Char) :=
  subs.find? (fun pr => pr.1.isPrefixOf hay && !pr.1.isEmpty)

/-- Fuel-indexed simultaneous substitution, following the spec wording of
template resolution (§4.2): scanning left to right, every occurrence of a
token is replaced by its substitute and all other text is left verbatim. -/
def substGo (subs : List (List Char × List Char)) : Nat → List Char → List Char
  | _, [] => []
  | 0, hay => hay
  | fuel + 1, c :: rest =>
    match findSub subs (c :: rest) with
    | some pr => pr.2 ++ substGo subs fuel (List.drop (pr.1.length - 1) rest)
    | none => c :: substGo subs fuel rest

/-- Simultaneous substitution of a token list over a character list. -/
def substL (subs : List (List Char × List Char)) (hay : List Char) : List Char :=
  substGo subs hay.length hay

/-- The distribution template substitution exactly as the spec states it:
`{arch}`, `{os}` and `{version}` substituted simultaneously in one scan,
unmatched text verbatim. -/
def substDistro (arch os versionStr t : String) : String :=
  ⟨substL [(ARCH_TEMPLATE.data, arch.data), (OS_TEMPLATE.data, os.data),
    (VERSION_TEMPLATE.data, versionStr.data)] t.data⟩

/-- The metadata template substitution as the spec states it: only `{arch}`
and `{os}` are substituted. -/
def substMeta (arch os t : String) : String :=
  ⟨substL [(ARCH_TEMPLATE.data, arch.data), (OS_TEMPLATE.data, os.data)] t.data⟩

/-- The head of `B` is not a character of `p`. -/
abbrev headFresh (B p : List Char) : Prop :=
  ∀ c ∈ p, B.head? ≠ some c

/-- Conditions on the platform identifier strings under which the sequential
`str::replace` chain of the source coincides with the simultaneous
substitution of the spec: the identifiers are non-empty, contain no brace,
and do not begin with a character of a token substituted after them. Every
real platform identifier pair (x64/x86/arm crossed with linux/macos/win)
satisfies them. -/
abbrev PlatformStrings (arch os : String) : Prop :=
  arch.data ≠ [] ∧ os.data ≠ [] ∧
  ('{' ∉ arch.data) ∧ ('{' ∉ os.data) ∧
  headFresh arch.data OS_TEMPLATE.data ∧
  headFresh arch.data VERSION_TEMPLATE.data ∧
  headFresh os.data VERSION_TEMPLATE.data

/-- A sample version for concrete instantiations. -/
def v1 : Version := ⟨10, 0, 0⟩

/-- A sample node runtime version (runtime plus bundled npm). -/
def nodeV : NodeVersion := ⟨⟨10, 0, 0⟩, ⟨6, 4, 1⟩⟩

/-- A second, distinct node runtime version. -/
def nodeV2 : NodeVersion := ⟨⟨8, 9, 4⟩, ⟨5, 6, 0⟩⟩

/-- A sample pinned project platform spec. -/
def specPinned : PlatformSpec := ⟨nodeV2, some ⟨1, 7, 0⟩⟩

/-- A concrete resolution environment: the x64 linux platform identifiers and
a stub process runner. -/
def envTest : ResolveEnv := ⟨"x64", "linux", fun inv => .ok ("out " ++ inv.cmd)⟩

/-- A hook collection carrying only a publish hook. -/
def hooksPub : Hooks := ⟨none, none, some ⟨some ⟨"https://events.invalid/publish"⟩⟩⟩

/-- An inventory that already contains `v1` for both tools. -/
def invTest : Inventory := ⟨⟨[v1]⟩, ⟨[v1]⟩⟩

/-- A collaborator world where every operation succeeds. -/
def wTest : World :=
  ⟨.ok hooksPub, .ok invTest,
    fun _ _ inv => .ok (.now nodeV, inv),
    fun _ _ inv => .ok (.now ⟨1, 7, 0⟩, inv)⟩

/-- A collaborator world whose hooks configuration fails to load. -/
def wHooksBad : World := { wTest with hooksLoad := .error (.unknown "bad hooks") }

/-- A collaborator world whose fetch routines fail. -/
def wFetchFail : World :=
  { wTest with fetchNode := fun _ _ _ => .error (.unknown "network down"),
               fetchYarn := fun _ _ _ => .error (.unknown "network down") }

/-- A fresh session outside any project, with empty caches. -/
def sEmpty : Session := ⟨none, none, ⟨none, none⟩, none, []⟩

/-- A session inside a project with a pinned platform spec, whose user
toolchain holds different active versions. -/
def sProjPinned : Session :=
  ⟨none, none, ⟨some nodeV, some ⟨1, 2, 0⟩⟩, some ⟨some specPinned⟩, []⟩

/-- A session with only a user-level active node version. -/
def sUserNode : Session := ⟨none, none, ⟨some nodeV, none⟩, none, []⟩

/-- A session with a user-level yarn version but no node version. -/
def sYarnOnly : Session := ⟨none, none, ⟨none, some ⟨1, 2, 0⟩⟩, none, []⟩

/-- A session whose hook and inventory caches are already materialized. -/
def sCached : Session := ⟨some hooksPub, some invTest, ⟨none, none⟩, none, []⟩

/-- A session with only the inventory cache materialized. -/
def sInvOnly : Session := ⟨none, some invTest, ⟨none, none⟩, none, []⟩

/-- Every fuel evaluates `replGo` like the haystack-length fuel, once it is at
least the haystack length. -/
theorem replGo_fuel (pat rep : List Char) :
    ∀ f g hay, hay.length ≤ f → hay.length ≤ g →
      replGo pat rep f hay = replGo pat rep g hay := by
  intro f
  induction f with
  | zero =>
    intro g hay hf _
    have hnil : hay = [] := List.eq_nil_of_length_eq_zero (Nat.le_zero.mp hf)
    subst hnil
    cases g <;> rfl
  | succ f ih =>
    intro g hay hf hg
    match hay with
    | [] => cases g <;> rfl
    | c :: rest =>
      match g with
      | 0 => simp at hg
      | g + 1 =>
        simp only [replGo]
        by_cases h : (pat.isPrefixOf (c :: rest) && !pat.isEmpty) = true
        · rw [if_pos h, if_pos h]
          have hd : (List.drop (pat.length - 1) rest).length ≤ rest.length := by
            rw [List.length_drop]; omega
          simp only [List.length_cons] at hf hg
          rw [ih g (List.drop (pat.length - 1) rest) (by omega) (by omega)]
        · rw [if_neg h, if_neg h]
          simp only [List.length_cons] at hf hg
          rw [ih g rest (by omega) (by omega)]

/-- `replaceL` on the empty haystack. -/
theorem replaceL_nil (pat rep : List Char) : replaceL pat rep [] = [] := rfl

/-- Step of `replaceL` at a match: the replacement is emitted and scanning
resumes after the matched pattern. -/
theorem replaceL_cons_pos (pat rep : List Char) (c : Char) (rest : List Char)
    (hp : pat.isPrefixOf (c :: rest) = true) (hne : pat ≠ []) :
    replaceL pat rep (c :: rest) =
      rep ++ replaceL pat rep (List.drop (pat.length - 1) rest) := by
  have hcond : (pat.isPrefixOf (c :: rest) && !pat.isEmpty) = true := by
    simp [hp, List.isEmpty_iff, hne]
  simp only [replaceL, List.length_cons]
  simp only [replGo]
  rw [if_pos hcond]
  congr 1
  exact replGo_fuel pat rep rest.length _ _ (by rw [List.length_drop]; omega) (le_refl _)

/-- Step of `replaceL` at a mismatch: the head character is copied verbatim. -/
theorem replaceL_cons_neg (pat rep : List Char) (c : Char) (rest : List Char)
    (h : (pat.isPrefixOf (c :: rest) && !pat.isEmpty) = false) :
    replaceL pat rep (c :: rest) = c :: replaceL pat rep rest := by
  simp only [replaceL, List.length_cons]
  simp only [replGo]
  rw [if_neg (by simp [h])]

/-- `replaceL` at an occurrence of the pattern itself. -/
theorem replaceL_self (pat rep y : List Char) (hne : pat ≠ []) :
    replaceL pat rep (pat ++ y) = rep ++ replaceL pat rep y := by
  match pat, hne with
  | p0 :: ps, _ =>
    have hp : (p0 :: ps).isPrefixOf (p0 :: (ps ++ y)) = true := by
      rw [List.isPrefixOf_iff_prefix, ← List.cons_append]
      exact List.prefix_append _ _
    rw [List.cons_append, replaceL_cons_pos _ _ _ _ hp (by simp)]
    congr 1
    rw [show (p0 :: ps).length - 1 = ps.length by simp, List.drop_left]

/-- Fuel irrelevance for the simultaneous substitution scanner. -/
theorem substGo_fuel (subs : List (List Char × List Char)) :
    ∀ f g hay, hay.length ≤ f → hay.length ≤ g →
      substGo subs f hay = substGo subs g hay := by
  intro f
  induction f with
  | zero =>
    intro g hay hf _
    have hnil : hay = [] := List.eq_nil_of_length_eq_zero (Nat.le_zero.mp hf)
    subst hnil
    cases g <;> rfl
  | succ f ih =>
    intro g hay hf hg
    match hay with
    | [] => cases g <;> rfl
    | c :: rest =>
      match g with
      | 0 => simp at hg
      | g + 1 =>
        simp only [List.length_cons] at hf hg
        match hfind : findSub subs (c :: rest) with
        | some pr =>
          have hd : (List.drop (pr.1.length - 1) rest).length ≤ rest.length := by
            rw [List.length_drop]; omega
          simp only [substGo, hfind]
          rw [ih g (List.drop (pr.1.length - 1) rest) (by omega) (by omega)]
        | none =>
          simp only [substGo, hfind]
          rw [ih g rest (by omega) (by omega)]

/-- `substL` on the empty haystack. -/
theorem substL_nil (subs : List (List Char × List Char)) : substL subs [] = [] := rfl

/-- Step of `substL` at an occurrence of a token found by `findSub`. -/
theorem substL_token (subs : List (List Char × List Char)) (p B y : List Char)
    (hp : p ≠ []) (hfind : findSub subs (p ++ y) = some (p, B)) :
    substL subs (p ++ y) = B ++ substL subs y := by
  match p, hp with
  | p0 :: ps, _ =>
    rw [List.cons_append] at hfind ⊢
    simp only [substL, List.length_cons]
    simp only [substGo, hfind]
    congr 1
    have hdrop : List.drop ((p0 :: ps).length - 1) (ps ++ y) = y := by
      rw [show (p0 :: ps).length - 1 = ps.length by simp, List.drop_left]
    rw [hdrop]
    exact substGo_fuel subs _ _ y (by rw [List.length_append]; omega) (le_refl _)

/-- Step of `substL` at a position where no token matches. -/
theorem substL_miss (subs : List (List Char × List Char)) (c : Char) (rest : List Char)
    (hfind : findSub subs (c :: rest) = none) :
    substL subs (c :: rest) = c :: substL subs rest := by
  simp only [substL, List.length_cons]
  simp only [substGo]
  rw [hfind]

/-- Scanning passes verbatim over a block none of whose characters can start
the pattern. -/
theorem replaceL_append_fresh (pat rep : List Char) (B y : List Char) (hne : pat ≠ [])
    (hB : ∀ c ∈ B, pat.head? ≠ some c) :
    replaceL pat rep (B ++ y) = B ++ replaceL pat rep y := by
  induction B with
  | nil => simp
  | cons b B ih =>
    have hcond : (pat.isPrefixOf (b :: (B ++ y)) && !pat.isEmpty) = false := by
      match pat, hne with
      | p0 :: ps, _ =>
        have hb : ¬ ((p0 :: ps).head? = some b) := hB b (List.mem_cons_self b B)
        have hb2 : p0 ≠ b := by simpa using hb
        simp [List.isPrefixOf, hb2]
    rw [List.cons_append, replaceL_cons_neg _ _ _ _ hcond,
      ih (fun c hc => hB c (List.mem_cons_of_mem _ hc))]
    rfl

/-- Scanning passes verbatim over a block in which the pattern does not occur:
it does not match at the start of the block, and no later character of the
block can start it. -/
theorem replaceL_append_noMatch (pat rep : List Char) :
    ∀ x y, pat ≠ [] → (∀ c ∈ x.drop 1, pat.head? ≠ some c) →
      pat.isPrefixOf (x ++ y) = false →
      replaceL pat rep (x ++ y) = x ++ replaceL pat rep y := by
  intro x
  induction x with
  | nil =>
    intro y _ _ _
    simp
  | cons d x ih =>
    intro y hne hx h0
    rw [List.cons_append] at h0
    have hcond : (pat.isPrefixOf (d :: (x ++ y)) && !pat.isEmpty) = false := by
      simp [h0]
    rw [List.cons_append, replaceL_cons_neg _ _ _ _ hcond]
    have hx1 : ∀ c ∈ x, pat.head? ≠ some c := by
      intro c hc
      exact hx c (by simpa using hc)
    cases x with
    | nil => simp
    | cons e x2 =>
      have hpe : pat.isPrefixOf ((e :: x2) ++ y) = false := by
        match pat, hne with
        | p0 :: ps, _ =>
          have he : ¬ ((p0 :: ps).head? = some e) := hx1 e (List.mem_cons_self e x2)
          have he2 : p0 ≠ e := by simpa using he
          simp [List.cons_append, List.isPrefixOf, he2]
      have hx2 : ∀ c ∈ (e :: x2).drop 1, pat.head? ≠ some c := by
        intro c hc
        exact hx1 c (List.mem_cons_of_mem e (by simpa using hc))
      rw [ih y hne hx2 hpe]
      rfl

/-- A block with no occurrence of the pattern is left unchanged. -/
theorem replaceL_no_match (pat rep x : List Char) (hne : pat ≠ [])
    (hx : ∀ c ∈ x.drop 1, pat.head? ≠ some c) (h0 : pat.isPrefixOf x = false) :
    replaceL pat rep x = x := by
  have := replaceL_append_noMatch pat rep x [] hne hx (by simpa using h0)
  simpa [replaceL_nil] using this

/-- A prefix test no longer than the first block is decided by that block. -/
theorem isPrefixOf_append_left (p : List Char) :
    ∀ x y, p.length ≤ x.length → p.isPrefixOf (x ++ y) = p.isPrefixOf x := by
  induction p with
  | nil => intro x y _; simp [List.isPrefixOf]
  | cons a p ih =>
    intro x y h
    cases x with
    | nil => simp at h
    | cons b x2 =>
      show ((a == b) && p.isPrefixOf (x2 ++ y)) = ((a == b) && p.isPrefixOf x2)
      rw [ih x2 y (by simpa using h)]

/-- Prefix reflection: a pattern (here generalized to any nonempty suffix `s`
of it) that begins no replacement block and shares no character with the
block head cannot be a prefix of the replaced text unless it already was one
of the original. -/
theorem isPrefixOf_of_isPrefixOf_replaceL (q B p : List Char) (hB : B ≠ [])
    (hBp : ∀ c ∈ p, B.head? ≠ some c) :
    ∀ t s, s ≠ [] → s <:+ p → s.isPrefixOf (replaceL q B t) = true →
      s.isPrefixOf t = true := by
  intro t
  induction t with
  | nil =>
    intro s hs _ h
    rw [replaceL_nil] at h
    match s, hs with
    | s0 :: s2, _ => simp [List.isPrefixOf] at h
  | cons c rest ih =>
    intro s hs hsp h
    by_cases hcond : (q.isPrefixOf (c :: rest) && !q.isEmpty) = true
    · have hq : q.isPrefixOf (c :: rest) = true := by
        have := hcond
        simp only [Bool.and_eq_true] at this
        exact this.1
      have hqne : q ≠ [] := by
        intro hcontra
        subst hcontra
        simp at hcond
      rw [replaceL_cons_pos q B c rest hq hqne] at h
      match B, hB with
      | b0 :: B2, _ =>
        match s, hs with
        | s0 :: s2, _ =>
          rw [List.cons_append] at h
          simp only [List.isPrefixOf, Bool.and_eq_true, beq_iff_eq] at h
          have hs0 : s0 ∈ p := List.IsSuffix.mem (List.mem_cons_self s0 s2) hsp
          have := hBp s0 hs0
          simp [h.1] at this
    · have hcondf : (q.isPrefixOf (c :: rest) && !q.isEmpty) = false := by
        revert hcond
        cases (q.isPrefixOf (c :: rest) && !q.isEmpty) <;> simp
      rw [replaceL_cons_neg q B c rest hcondf] at h
      match s, hs with
      | s0 :: s2, _ =>
        simp only [List.isPrefixOf, Bool.and_eq_true, beq_iff_eq] at h
        obtain ⟨hs0, h2⟩ := h
        cases s2 with
        | nil =>
          simp [List.isPrefixOf, hs0]
        | cons u s3 =>
          have hsuf : (u :: s3) <:+ p := (List.suffix_cons s0 (u :: s3)).trans hsp
          have hrec := ih (u :: s3) (by simp) hsuf h2
          simp [List.isPrefixOf, hs0, hrec]

/-- `findSub` finds the leading substitution at an occurrence of its token. -/
theorem findSub_head (p B : List Char) (subs2 : List (List Char × List Char))
    (y : List Char) (hp : p ≠ []) :
    findSub ((p, B) :: subs2) (p ++ y) = some (p, B) := by
  apply List.find?_cons_of_pos
  have h1 : p.isPrefixOf (p ++ y) = true :=
    List.isPrefixOf_iff_prefix.mpr (List.prefix_append p y)
  have h2 : p.isEmpty = false := by simp [List.isEmpty_iff, hp]
  simp [h1, h2]

/-- `findSub` skips a substitution whose token does not match here. -/
theorem findSub_skip (p B : List Char) (subs2 : List (List Char × List Char))
    (hay : List Char) (h : p.isPrefixOf hay = false) :
    findSub ((p, B) :: subs2) hay = findSub subs2 hay := by
  apply List.find?_cons_of_neg
  simp [h]

/-- The sequential replace chain of `DistroHook::resolve` coincides with the
simultaneous substitution of the three tokens, for replacement strings that
are non-empty, brace-free and do not begin with a character of a token
substituted after them. -/
theorem replace_chain_distro (A O V : List Char)
    (hA : A ≠ []) (hO : O ≠ []) (hAbr : '{' ∉ A) (hObr : '{' ∉ O)
    (hAo : headFresh A OS_TEMPLATE.data)
    (hAv : headFresh A VERSION_TEMPLATE.data)
    (hOv : headFresh O VERSION_TEMPLATE.data) :
    ∀ n t, t.length ≤ n →
      replaceL VERSION_TEMPLATE.data V
        (replaceL OS_TEMPLATE.data O (replaceL ARCH_TEMPLATE.data A t)) =
      substL [(ARCH_TEMPLATE.data, A), (OS_TEMPLATE.data, O),
        (VERSION_TEMPLATE.data, V)] t := by
  have hA_o : ∀ c ∈ A, OS_TEMPLATE.data.head? ≠ some c := by
    intro c hc h
    have hh : OS_TEMPLATE.data.head? = some '{' := rfl
    rw [hh] at h
    exact hAbr ((Option.some.inj h) ▸ hc)
  have hA_v : ∀ c ∈ A, VERSION_TEMPLATE.data.head? ≠ some c := by
    intro c hc h
    have hh : VERSION_TEMPLATE.data.head? = some '{' := rfl
    rw [hh] at h
    exact hAbr ((Option.some.inj h) ▸ hc)
  have hO_v : ∀ c ∈ O, VERSION_TEMPLATE.data.head? ≠ some c := by
    intro c hc h
    have hh : VERSION_TEMPLATE.data.head? = some '{' := rfl
    rw [hh] at h
    exact hObr ((Option.some.inj h) ▸ hc)
  intro n
  induction n using Nat.strong_induction_on with
  | _ n IH =>
    intro t ht
    cases t with
    | nil => simp [replaceL_nil, substL_nil]
    | cons c rest =>
      rw [List.length_cons] at ht
      by_cases ha : ARCH_TEMPLATE.data.isPrefixOf (c :: rest) = true
      · have hdec : c :: rest = ARCH_TEMPLATE.data ++ List.drop 5 rest := by
          have h2 := List.prefix_iff_eq_append.mp (List.isPrefixOf_iff_prefix.mp ha)
          rw [show ARCH_TEMPLATE.data.length = 6 from rfl] at h2
          rw [show List.drop 6 (c :: rest) = List.drop 5 rest from rfl] at h2
          exact h2.symm
        rw [hdec]
        rw [replaceL_self _ _ _ (by decide),
          replaceL_append_fresh _ _ _ _ (by decide) hA_o,
          replaceL_append_fresh _ _ _ _ (by decide) hA_v]
        rw [substL_token _ _ A _ (by decide) (findSub_head _ _ _ _ (by decide))]
        congr 1
        exact IH rest.length (by omega) _ (by rw [List.length_drop]; omega)
      · have haf : ARCH_TEMPLATE.data.isPrefixOf (c :: rest) = false := by
          revert ha
          cases ARCH_TEMPLATE.data.isPrefixOf (c :: rest) <;> simp
        by_cases ho : OS_TEMPLATE.data.isPrefixOf (c :: rest) = true
        · have hdec : c :: rest = OS_TEMPLATE.data ++ List.drop 3 rest := by
            have h2 := List.prefix_iff_eq_append.mp (List.isPrefixOf_iff_prefix.mp ho)
            rw [show OS_TEMPLATE.data.length = 4 from rfl] at h2
            rw [show List.drop 4 (c :: rest) = List.drop 3 rest from rfl] at h2
            exact h2.symm
          rw [hdec] at haf ⊢
          rw [replaceL_append_noMatch _ _ _ _ (by decide) (by decide) haf,
            replaceL_self _ _ _ (by decide),
            replaceL_append_fresh _ _ _ _ (by decide) hO_v]
          rw [substL_token _ _ O _ (by decide) (by
            rw [findSub_skip _ _ _ _ haf]
            exact findSub_head _ _ _ _ (by decide))]
          congr 1
          exact IH rest.length (by omega) _ (by rw [List.length_drop]; omega)
        · have hof : OS_TEMPLATE.data.isPrefixOf (c :: rest) = false := by
            revert ho
            cases OS_TEMPLATE.data.isPrefixOf (c :: rest) <;> simp
          by_cases hv : VERSION_TEMPLATE.data.isPrefixOf (c :: rest) = true
          · have hdec : c :: rest = VERSION_TEMPLATE.data ++ List.drop 8 rest := by
              have h2 := List.prefix_iff_eq_append.mp (List.isPrefixOf_iff_prefix.mp hv)
              rw [show VERSION_TEMPLATE.data.length = 9 from rfl] at h2
              rw [show List.drop 9 (c :: rest) = List.drop 8 rest from rfl] at h2
              exact h2.symm
            rw [hdec] at haf hof ⊢
            rw [replaceL_append_noMatch _ _ _ _ (by decide) (by decide) haf,
              replaceL_append_noMatch _ _ _ _ (by decide) (by decide) (by
                rw [isPrefixOf_append_left _ _ _ (by decide)]
                decide),
              replaceL_self _ _ _ (by decide)]
            rw [substL_token _ _ V _ (by decide) (by
              rw [findSub_skip _ _ _ _ haf, findSub_skip _ _ _ _ hof]
              exact findSub_head _ _ _ _ (by decide))]
            congr 1
            exact IH rest.length (by omega) _ (by rw [List.length_drop]; omega)
          · have hvf : VERSION_TEMPLATE.data.isPrefixOf (c :: rest) = false := by
              revert hv
              cases VERSION_TEMPLATE.data.isPrefixOf (c :: rest) <;> simp
            have e1 : replaceL ARCH_TEMPLATE.data A (c :: rest) =
                c :: replaceL ARCH_TEMPLATE.data A rest :=
              replaceL_cons_neg _ _ _ _ (by simp [haf])
            have e2cond : OS_TEMPLATE.data.isPrefixOf
                (replaceL ARCH_TEMPLATE.data A (c :: rest)) = false := by
              cases hb : OS_TEMPLATE.data.isPrefixOf
                  (replaceL ARCH_TEMPLATE.data A (c :: rest)) with
              | false => rfl
              | true =>
                have := isPrefixOf_of_isPrefixOf_replaceL ARCH_TEMPLATE.data A
                  OS_TEMPLATE.data hA hAo (c :: rest) OS_TEMPLATE.data (by decide)
                  (List.suffix_refl _) hb
                rw [hof] at this
                exact absurd this (by simp)
            have e2cond2 : OS_TEMPLATE.data.isPrefixOf
                (c :: replaceL ARCH_TEMPLATE.data A rest) = false := by
              rw [e1] at e2cond
              exact e2cond
            have e2 : replaceL OS_TEMPLATE.data O
                (c :: replaceL ARCH_TEMPLATE.data A rest) =
                c :: replaceL OS_TEMPLATE.data O (replaceL ARCH_TEMPLATE.data A rest) :=
              replaceL_cons_neg _ _ _ _ (by simp [e2cond2])
            have e3cond : VERSION_TEMPLATE.data.isPrefixOf
                (replaceL OS_TEMPLATE.data O (replaceL ARCH_TEMPLATE.data A (c :: rest))) =
                false := by
              cases hb : VERSION_TEMPLATE.data.isPrefixOf
                  (replaceL OS_TEMPLATE.data O
                    (replaceL ARCH_TEMPLATE.data A (c :: rest))) with
              | false => rfl
              | true =>
                have hstep1 := isPrefixOf_of_isPrefixOf_replaceL OS_TEMPLATE.data O
                  VERSION_TEMPLATE.data hO hOv (replaceL ARCH_TEMPLATE.data A (c :: rest))
                  VERSION_TEMPLATE.data (by decide) (List.suffix_refl _) hb
                have hstep2 := isPrefixOf_of_isPrefixOf_replaceL ARCH_TEMPLATE.data A
                  VERSION_TEMPLATE.data hA hAv (c :: rest)
                  VERSION_TEMPLATE.data (by decide) (List.suffix_refl _) hstep1
                rw [hvf] at hstep2
                exact absurd hstep2 (by simp)
            have e3cond2 : VERSION_TEMPLATE.data.isPrefixOf
                (c :: replaceL OS_TEMPLATE.data O (replaceL ARCH_TEMPLATE.data A rest)) =
                false := by
              rw [e1, e2] at e3cond
              exact e3cond
            rw [e1, e2]
            rw [replaceL_cons_neg _ _ _ _ (by simp [e3cond2])]
            rw [substL_miss _ _ _ (by
              rw [findSub_skip _ _ _ _ haf, findSub_skip _ _ _ _ hof,
                findSub_skip _ _ _ _ hvf]
              rfl)]
            congr 1
            exact IH rest.length (by omega) rest (by omega)

/-- The sequential replace chain of `MetadataHook::resolve` coincides with the
simultaneous substitution of the two tokens `{arch}` and `{os}`. -/
theorem replace_chain_meta (A O : List Char)
    (hA : A ≠ []) (hAbr : '{' ∉ A)
    (hAo : headFresh A OS_TEMPLATE.data) :
    ∀ n t, t.length ≤ n →
      replaceL OS_TEMPLATE.data O (replaceL ARCH_TEMPLATE.data A t) =
      substL [(ARCH_TEMPLATE.data, A), (OS_TEMPLATE.data, O)] t := by
  have hA_o : ∀ c ∈ A, OS_TEMPLATE.data.head? ≠ some c := by
    intro c hc h
    have hh : OS_TEMPLATE.data.head? = some '{' := rfl
    rw [hh] at h
    exact hAbr ((Option.some.inj h) ▸ hc)
  intro n
  induction n using Nat.strong_induction_on with
  | _ n IH =>
    intro t ht
    cases t with
    | nil => simp [replaceL_nil, substL_nil]
    | cons c rest =>
      rw [List.length_cons] at ht
      by_cases ha : ARCH_TEMPLATE.data.isPrefixOf (c :: rest) = true
      · have hdec : c :: rest = ARCH_TEMPLATE.data ++ List.drop 5 rest := by
          have h2 := List.prefix_iff_eq_append.mp (List.isPrefixOf_iff_prefix.mp ha)
          rw [show ARCH_TEMPLATE.data.length = 6 from rfl] at h2
          rw [show List.drop 6 (c :: rest) = List.drop 5 rest from rfl] at h2
          exact h2.symm
        rw [hdec]
        rw [replaceL_self _ _ _ (by decide),
          replaceL_append_fresh _ _ _ _ (by decide) hA_o]
        rw [substL_token _ _ A _ (by decide) (findSub_head _ _ _ _ (by decide))]
        congr 1
        exact IH rest.length (by omega) _ (by rw [List.length_drop]; omega)
      · have haf : ARCH_TEMPLATE.data.isPrefixOf (c :: rest) = false := by
          revert ha
          cases ARCH_TEMPLATE.data.isPrefixOf (c :: rest) <;> simp
        by_cases ho : OS_TEMPLATE.data.isPrefixOf (c :: rest) = true
        · have hdec : c :: rest = OS_TEMPLATE.data ++ List.drop 3 rest := by
            have h2 := List.prefix_iff_eq_append.mp (List.isPrefixOf_iff_prefix.mp ho)
            rw [show OS_TEMPLATE.data.length = 4 from rfl] at h2
            rw [show List.drop 4 (c :: rest) = List.drop 3 rest from rfl] at h2
            exact h2.symm
          rw [hdec] at haf ⊢
          rw [replaceL_append_noMatch _ _ _ _ (by decide) (by decide) haf,
            replaceL_self _ _ _ (by decide)]
          rw [substL_token _ _ O _ (by decide) (by
            rw [findSub_skip _ _ _ _ haf]
            exact findSub_head _ _ _ _ (by decide))]
          congr 1
          exact IH rest.length (by omega) _ (by rw [List.length_drop]; omega)
        · have hof : OS_TEMPLATE.data.isPrefixOf (c :: rest) = false := by
            revert ho
            cases OS_TEMPLATE.data.isPrefixOf (c :: rest) <;> simp
          have e1 : replaceL ARCH_TEMPLATE.data A (c :: rest) =
              c :: replaceL ARCH_TEMPLATE.data A rest :=
            replaceL_cons_neg _ _ _ _ (by simp [haf])
          have e2cond : OS_TEMPLATE.data.isPrefixOf
              (replaceL ARCH_TEMPLATE.data A (c :: rest)) = false := by
            cases hb : OS_TEMPLATE.data.isPrefixOf
                (replaceL ARCH_TEMPLATE.data A (c :: rest)) with
            | false => rfl
            | true =>
              have := isPrefixOf_of_isPrefixOf_replaceL ARCH_TEMPLATE.data A
                OS_TEMPLATE.data hA hAo (c :: rest) OS_TEMPLATE.data (by decide)
                (List.suffix_refl _) hb
              rw [hof] at this
              exact absurd this (by simp)
          have e2cond2 : OS_TEMPLATE.data.isPrefixOf
              (c :: replaceL ARCH_TEMPLATE.data A rest) = false := by
            rw [e1] at e2cond
            exact e2cond
          rw [e1]
          rw [replaceL_cons_neg _ _ _ _ (by simp [e2cond2])]
          rw [substL_miss _ _ _ (by
            rw [findSub_skip _ _ _ _ haf, findSub_skip _ _ _ _ hof]
            rfl)]
          congr 1
          exact IH rest.length (by omega) rest (by omega)

/-- Accessing the lazy inventory never touches the toolchain. -/
theorem inventoryGet_toolchain (w : World) (s : Session) :
    (Session.inventoryGet w s).session.toolchain = s.toolchain := by
  unfold Session.inventoryGet
  cases s.inventory with
  | some inv => rfl
  | none => cases w.inventoryLoad with
    | ok inv => rfl
    | error e => rfl

/-- Accessing the lazy hook collection never touches the toolchain. -/
theorem hooksGet_toolchain (w : World) (s : Session) :
    (Session.hooksGet w s).session.toolchain = s.toolchain := by
  unfold Session.hooksGet
  cases s.hooks with
  | some h => rfl
  | none => cases w.hooksLoad with
    | ok h => rfl
    | error e => rfl

/-- `install_node` either leaves the toolchain untouched or succeeds. -/
theorem install_node_toolchain (w : World) (s : Session) (matching : VersionSpec) :
    (Session.install_node w s matching).session.toolchain = s.toolchain ∨
    (Session.install_node w s matching).result = .ok () := by
  rcases hI : Session.inventoryGet w s with ⟨r1, s1, t1⟩
  have h1 : s1.toolchain = s.toolchain := by
    have := inventoryGet_toolchain w s
    rw [hI] at this
    exact this
  cases r1 with
  | error e =>
    left
    simp only [Session.install_node, hI]
    exact h1
  | ok inv =>
    rcases hH : Session.hooksGet w s1 with ⟨r2, s2, t2⟩
    have h2 : s2.toolchain = s1.toolchain := by
      have := hooksGet_toolchain w s1
      rw [hH] at this
      exact this
    cases r2 with
    | error e =>
      left
      simp only [Session.install_node, hI, hH]
      exact h2.trans h1
    | ok hk =>
      cases hF : w.fetchNode matching hk inv with
      | error e =>
        left
        simp only [Session.install_node, hI, hH, hF]
        exact h2.trans h1
      | ok pr =>
        right
        rcases pr with ⟨f, inv2⟩
        simp only [Session.install_node, hI, hH, hF]

/-- `install_yarn` either leaves the toolchain untouched or succeeds. -/
theorem install_yarn_toolchain (w : World) (s : Session) (matching : VersionSpec) :
    (Session.install_yarn w s matching).session.toolchain = s.toolchain ∨
    (Session.install_yarn w s matching).result = .ok () := by
  rcases hI : Session.inventoryGet w s with ⟨r1, s1, t1⟩
  have h1 : s1.toolchain = s.toolchain := by
    have := inventoryGet_toolchain w s
    rw [hI] at this
    exact this
  cases r1 with
  | error e =>
    left
    simp only [Session.install_yarn, hI]
    exact h1
  | ok inv =>
    rcases hH : Session.hooksGet w s1 with ⟨r2, s2, t2⟩
    have h2 : s2.toolchain = s1.toolchain := by
      have := hooksGet_toolchain w s1
      rw [hH] at this
      exact this
    cases r2 with
    | error e =>
      left
      simp only [Session.install_yarn, hI, hH]
      exact h2.trans h1
    | ok hk =>
      cases hF : w.fetchYarn matching hk inv with
      | error e =>
        left
        simp only [Session.install_yarn, hI, hH, hF]
        exact h2.trans h1
      | ok pr =>
        right
        rcases pr with ⟨f, inv2⟩
        simp only [Session.install_yarn, hI, hH, hF]

/-- C7: for every prefix string p and filename f, resolving a Prefix(p) hook
with default filename f returns exactly the concatenation of p and f and
succeeds, for both the distribution hook and the metadata hook. -/
theorem c7_prefix_resolution (env : ResolveEnv) (p filename : String) (v : Version) :
    DistroHook.resolve env (.Prefix p) v filename = .ok (p ++ filename) ∧
    MetadataHook.resolve env (.Prefix p) filename = .ok (p ++ filename) :=
  ⟨rfl, rfl⟩

/-- C5: for every command string that is empty or all-whitespace after
trimming, resolving a Bin hook fails with the InvalidCommand error, for both
the distribution hook kind and the metadata hook kind. -/
theorem c5_bin_empty_invalid_command (env : ResolveEnv) (bin filename : String)
    (v : Version) (h : rustTrim bin = "") :
    DistroHook.resolve env (.Bin bin) v filename = .error (.invalidCommand "") ∧
    MetadataHook.resolve env (.Bin bin) filename = .error (.invalidCommand "") := by
  constructor
  · show execute_binary env bin (some (Version.toString v)) = _
    simp only [execute_binary, h]
    rfl
  · show execute_binary env bin none = _
    simp only [execute_binary, h]
    rfl

/-- Witness for C5 at the all-whitespace command string. -/
theorem c5_bin_empty_invalid_command_witness :
    DistroHook.resolve envTest (.Bin "  \t ") ⟨1, 0, 0⟩ "f" =
      .error (.invalidCommand "") ∧
    MetadataHook.resolve envTest (.Bin "  \t ") "f" = .error (.invalidCommand "") :=
  c5_bin_empty_invalid_command envTest "  \t " "f" ⟨1, 0, 0⟩ (by decide)

/-- C6: when a distribution Bin hook is resolved for a version, the version
string is appended as the final element of the argument list passed to the
invoked command; a metadata Bin hook appends nothing beyond the lexed words. -/
theorem c6_bin_trailing_argument (env : ResolveEnv) (bin filename : String)
    (v : Version) (cmd : String) (args0 : List String)
    (h : parse_cmdline_words (rustTrim bin) = cmd :: args0) :
    DistroHook.resolve env (.Bin bin) v filename =
      Except.map rustTrim (env.runner ⟨cmd, args0 ++ [v.toString]⟩) ∧
    MetadataHook.resolve env (.Bin bin) filename =
      Except.map rustTrim (env.runner ⟨cmd, args0⟩) := by
  constructor
  · show execute_binary env bin (some (Version.toString v)) = _
    simp only [execute_binary, h]
    cases env.runner ⟨cmd, args0 ++ [Version.toString v]⟩ <;> rfl
  · show execute_binary env bin none = _
    simp only [execute_binary, h]
    cases env.runner ⟨cmd, args0⟩ <;> rfl

/-- Witness for C6 at a two-word command and version 4.5.6. -/
theorem c6_bin_trailing_argument_witness :
    DistroHook.resolve envTest (.Bin "curl -s") ⟨4, 5, 6⟩ "f" =
      Except.map rustTrim (envTest.runner ⟨"curl", ["-s", "4.5.6"]⟩) ∧
    MetadataHook.resolve envTest (.Bin "curl -s") "f" =
      Except.map rustTrim (envTest.runner ⟨"curl", ["-s"]⟩) := by
  have h := c6_bin_trailing_argument envTest "curl -s" "f" ⟨4, 5, 6⟩ "curl" ["-s"]
    (by decide)
  constructor
  · rw [h.1]
    decide
  · exact h.2

/-- C2: distribution template resolution substitutes every occurrence of
the tokens simultaneously recognized by the spec, metadata resolution only
the arch and os tokens, and a literal version token in a metadata template
is left unsubstituted. -/
theorem c2_template_tokens (env : ResolveEnv) (t filename : String) (v : Version)
    (hps : PlatformStrings env.arch env.os) :
    DistroHook.resolve env (.Template t) v filename =
      .ok (substDistro env.arch env.os v.toString t) ∧
    MetadataHook.resolve env (.Template t) filename =
      .ok (substMeta env.arch env.os t) ∧
    MetadataHook.resolve env (.Template VERSION_TEMPLATE) filename =
      .ok VERSION_TEMPLATE := by
  obtain ⟨hA, hO, hAbr, hObr, hAo, hAv, hOv⟩ := hps
  refine ⟨?_, ?_, ?_⟩
  · have hmain := replace_chain_distro env.arch.data env.os.data
      (Version.toString v).data hA hO hAbr hObr hAo hAv hOv t.data.length t.data
      (le_refl _)
    show Except.ok (rustReplace (rustReplace (rustReplace t ARCH_TEMPLATE env.arch)
      OS_TEMPLATE env.os) VERSION_TEMPLATE (Version.toString v)) =
      Except.ok (substDistro env.arch env.os (Version.toString v) t)
    rw [show rustReplace (rustReplace (rustReplace t ARCH_TEMPLATE env.arch)
      OS_TEMPLATE env.os) VERSION_TEMPLATE (Version.toString v) =
      String.mk (replaceL VERSION_TEMPLATE.data (Version.toString v).data
        (replaceL OS_TEMPLATE.data env.os.data
          (replaceL ARCH_TEMPLATE.data env.arch.data t.data))) from rfl]
    rw [show substDistro env.arch env.os (Version.toString v) t =
      String.mk (substL [(ARCH_TEMPLATE.data, env.arch.data),
        (OS_TEMPLATE.data, env.os.data),
        (VERSION_TEMPLATE.data, (Version.toString v).data)] t.data) from rfl]
    rw [hmain]
  · have hmain := replace_chain_meta env.arch.data env.os.data hA hAbr hAo
      t.data.length t.data (le_refl _)
    show Except.ok (rustReplace (rustReplace t ARCH_TEMPLATE env.arch)
      OS_TEMPLATE env.os) = Except.ok (substMeta env.arch env.os t)
    rw [show rustReplace (rustReplace t ARCH_TEMPLATE env.arch) OS_TEMPLATE env.os =
      String.mk (replaceL OS_TEMPLATE.data env.os.data
        (replaceL ARCH_TEMPLATE.data env.arch.data t.data)) from rfl]
    rw [show substMeta env.arch env.os t =
      String.mk (substL [(ARCH_TEMPLATE.data, env.arch.data),
        (OS_TEMPLATE.data, env.os.data)] t.data) from rfl]
    rw [hmain]
  · have h1 : replaceL ARCH_TEMPLATE.data env.arch.data VERSION_TEMPLATE.data =
        VERSION_TEMPLATE.data :=
      replaceL_no_match _ _ _ (by decide) (by decide) (by decide)
    have h2 : replaceL OS_TEMPLATE.data env.os.data VERSION_TEMPLATE.data =
        VERSION_TEMPLATE.data :=
      replaceL_no_match _ _ _ (by decide) (by decide) (by decide)
    show Except.ok (rustReplace (rustReplace VERSION_TEMPLATE ARCH_TEMPLATE env.arch)
      OS_TEMPLATE env.os) = Except.ok VERSION_TEMPLATE
    rw [show rustReplace (rustReplace VERSION_TEMPLATE ARCH_TEMPLATE env.arch)
      OS_TEMPLATE env.os =
      String.mk (replaceL OS_TEMPLATE.data env.os.data
        (replaceL ARCH_TEMPLATE.data env.arch.data VERSION_TEMPLATE.data)) from rfl]
    rw [h1, h2]

/-- Witness for C2 on the x64 linux identifiers, evaluating the documented
example template and a metadata template carrying a literal version token. -/
theorem c2_template_tokens_witness :
    DistroHook.resolve envTest (.Template "http://h/{os}/{arch}/{version}/node.tgz")
      ⟨1, 2, 3⟩ "node.tgz" = .ok "http://h/linux/x64/1.2.3/node.tgz" ∧
    MetadataHook.resolve envTest (.Template "{version}-{os}") "f" =
      .ok "{version}-linux" ∧
    MetadataHook.resolve envTest (.Template VERSION_TEMPLATE) "f" =
      .ok VERSION_TEMPLATE := by
  have h1 := c2_template_tokens envTest "http://h/{os}/{arch}/{version}/node.tgz"
    "node.tgz" ⟨1, 2, 3⟩ (by decide)
  have h2 := c2_template_tokens envTest "{version}-{os}" "f" ⟨1, 2, 3⟩ (by decide)
  refine ⟨?_, ?_, h2.2.2⟩
  · rw [h1.1]
    decide
  · rw [h2.2.1]
    decide

/-- C1: current_platform returns the project pin unchanged whenever one
exists; otherwise it builds a spec from the user toolchain when an active
node version exists (taking the active yarn version when set), and returns
absent when the user has no active node version, even if a yarn version is
set. -/
theorem c1_current_platform_precedence (s : Session) :
    (∀ p, s.project_platform = some p → s.current_platform = .ok (some p)) ∧
    (s.project_platform = none → ∀ n, s.toolchain.get_active_node = some n →
      s.current_platform =
        .ok (some { node := n, yarn := s.toolchain.get_active_yarn })) ∧
    (s.project_platform = none → s.toolchain.get_active_node = none →
      s.current_platform = .ok none) := by
  refine ⟨?_, ?_, ?_⟩
  · intro p hp
    simp [Session.current_platform, hp]
  · intro hp n hn
    cases hy : s.toolchain.get_active_yarn with
    | none =>
      simp [Session.current_platform, Session.user_platform, Session.user_node,
        Session.user_yarn, hp, hn, hy]
    | some y =>
      simp [Session.current_platform, Session.user_platform, Session.user_node,
        Session.user_yarn, hp, hn, hy]
  · intro hp hn
    simp [Session.current_platform, Session.user_platform, Session.user_node,
      hp, hn]

/-- Witness for C1 on a pinned project session, a user-node-only session and
a yarn-only session. -/
theorem c1_current_platform_precedence_witness :
    Session.current_platform sProjPinned = .ok (some specPinned) ∧
    Session.current_platform sUserNode = .ok (some { node := nodeV, yarn := none }) ∧
    Session.current_platform sYarnOnly = .ok none := by
  refine ⟨?_, ?_, ?_⟩
  · exact (c1_current_platform_precedence sProjPinned).1 specPinned rfl
  · have h := (c1_current_platform_precedence sUserNode).2.1 rfl nodeV rfl
    rw [h]
    decide
  · exact (c1_current_platform_precedence sYarnOnly).2.2 rfl rfl

/-- C3: pinning node or yarn with no active project fails with the
NotInPackage configuration error, leaves the session unchanged, and performs
zero invocations of a fetch routine. -/
theorem c3_pin_without_project (w : World) (s : Session) (matching : VersionSpec)
    (h : s.project = none) :
    Session.pin_node_version w s matching = ⟨.error .notInPackage, s, []⟩ ∧
    Session.pin_yarn_version w s matching = ⟨.error .notInPackage, s, []⟩ ∧
    List.filter Effect.isFetch (Session.pin_node_version w s matching).trace = [] ∧
    List.filter Effect.isFetch (Session.pin_yarn_version w s matching).trace = [] := by
  have h1 : Session.pin_node_version w s matching = ⟨.error .notInPackage, s, []⟩ := by
    simp [Session.pin_node_version, h]
  have h2 : Session.pin_yarn_version w s matching = ⟨.error .notInPackage, s, []⟩ := by
    simp [Session.pin_yarn_version, h]
  refine ⟨h1, h2, ?_, ?_⟩
  · rw [h1]
    rfl
  · rw [h2]
    rfl

/-- Witness for C3 on a session outside any project. -/
theorem c3_pin_without_project_witness :
    Session.pin_node_version wTest sUserNode (.req "10.x") =
      ⟨.error .notInPackage, sUserNode, []⟩ ∧
    Session.pin_yarn_version wTest sUserNode (.req "10.x") =
      ⟨.error .notInPackage, sUserNode, []⟩ ∧
    List.filter Effect.isFetch
      (Session.pin_node_version wTest sUserNode (.req "10.x")).trace = [] ∧
    List.filter Effect.isFetch
      (Session.pin_yarn_version wTest sUserNode (.req "10.x")).trace = [] :=
  c3_pin_without_project wTest sUserNode (.req "10.x") rfl

/-- C4: on the exit paths, a failure to resolve the hook collection for the
publish step is reduced to a printed warning, nothing is published, and the
process terminates with the originally intended exit code; the exit code is
preserved in every case. -/
theorem c4_exit_hook_failure_is_warning (w : World) (s : Session)
    (code codeT : Int) (e : NotionError)
    (hcache : s.hooks = none) (hload : w.hooksLoad = .error e) :
    Session.exit w s code =
      { code := code,
        warning := some ("Warning: invalid config file (" ++ NotionError.display e ++ ")"),
        published := none } ∧
    Session.exit_tool w s codeT =
      { code := codeT,
        warning := some ("Warning: invalid config file (" ++ NotionError.display e ++ ")"),
        published := none } ∧
    (∀ (w2 : World) (s2 : Session) (c2 : Int),
      (Session.exit w2 s2 c2).code = c2 ∧ (Session.exit_tool w2 s2 c2).code = c2) := by
  have hp : Session.publish_to_event_log w s =
      (some ("Warning: invalid config file (" ++ NotionError.display e ++ ")"), none) := by
    simp [Session.publish_to_event_log, publish_plugin, Session.hooksGet, hcache, hload]
  refine ⟨?_, ?_, ?_⟩
  · simp [Session.exit, hp]
  · simp [Session.exit_tool, hp]
  · intro w2 s2 c2
    exact ⟨rfl, rfl⟩

/-- Witness for C4 on a session with unmaterialized hooks and a world whose
hooks configuration fails to load. -/
theorem c4_exit_hook_failure_is_warning_witness :
    Session.exit wHooksBad sEmpty 3 =
      { code := 3, warning := some "Warning: invalid config file (bad hooks)",
        published := none } ∧
    Session.exit_tool wHooksBad sEmpty 7 =
      { code := 7, warning := some "Warning: invalid config file (bad hooks)",
        published := none } := by
  have h := c4_exit_hook_failure_is_warning wHooksBad sEmpty 3 7 (.unknown "bad hooks")
    rfl rfl
  refine ⟨?_, ?_⟩
  · rw [h.1]
    decide
  · rw [h.2.1]
    decide

/-- C8: ensure only fetches when the inventory lacks the exact version, so
with the version present it performs no fetch and two consecutive calls
perform at most one fetch. -/
theorem c8_ensure_idempotent_cached (w : World) (s : Session) (inv : Inventory)
    (v : Version) (hinv : s.inventory = some inv) :
    (inv.node.contains v = true →
      (Session.ensure_node w s v).result = .ok () ∧
      List.filter Effect.isFetch (Session.ensure_node w s v).trace = [] ∧
      (Session.ensure_node w (Session.ensure_node w s v).session v).result = .ok () ∧
      (List.filter Effect.isFetch
        ((Session.ensure_node w s v).trace ++
          (Session.ensure_node w (Session.ensure_node w s v).session v).trace)).length
        ≤ 1) ∧
    (inv.yarn.contains v = true →
      (Session.ensure_yarn w s v).result = .ok () ∧
      List.filter Effect.isFetch (Session.ensure_yarn w s v).trace = [] ∧
      (Session.ensure_yarn w (Session.ensure_yarn w s v).session v).result = .ok () ∧
      (List.filter Effect.isFetch
        ((Session.ensure_yarn w s v).trace ++
          (Session.ensure_yarn w (Session.ensure_yarn w s v).session v).trace)).length
        ≤ 1) := by
  constructor
  · intro hc
    have hstep : Session.ensure_node w s v = ⟨.ok (), s, [.inventoryAccess]⟩ := by
      simp [Session.ensure_node, Session.inventoryGet, hinv, hc]
    simp [hstep, Effect.isFetch]
  · intro hc
    have hstep : Session.ensure_yarn w s v = ⟨.ok (), s, [.inventoryAccess]⟩ := by
      simp [Session.ensure_yarn, Session.inventoryGet, hinv, hc]
    simp [hstep, Effect.isFetch]

/-- Witness for C8 on an inventory already containing the version. -/
theorem c8_ensure_idempotent_cached_witness :
    (Session.ensure_node wTest sInvOnly v1).result = .ok () ∧
    (List.filter Effect.isFetch
      ((Session.ensure_node wTest sInvOnly v1).trace ++
        (Session.ensure_node wTest (Session.ensure_node wTest sInvOnly v1).session
          v1).trace)).length ≤ 1 ∧
    (Session.ensure_yarn wTest sInvOnly v1).result = .ok () := by
  have h := c8_ensure_idempotent_cached wTest sInvOnly invTest v1 rfl
  have hn := h.1 (by decide)
  have hy := h.2 (by decide)
  exact ⟨hn.1, hn.2.2.2, hy.1⟩

/-- C10: for a version the inventory already contains, ensure succeeds
without ever accessing or initializing the hook collection, whatever the
state of the hooks configuration. -/
theorem c10_ensure_present_needs_no_hooks (w : World) (s : Session)
    (inv : Inventory) (v : Version) (hinv : s.inventory = some inv) :
    (inv.node.contains v = true →
      (Session.ensure_node w s v).result = .ok () ∧
      Effect.hooksAccess ∉ (Session.ensure_node w s v).trace) ∧
    (inv.yarn.contains v = true →
      (Session.ensure_yarn w s v).result = .ok () ∧
      Effect.hooksAccess ∉ (Session.ensure_yarn w s v).trace) := by
  constructor
  · intro hc
    have hstep : Session.ensure_node w s v = ⟨.ok (), s, [.inventoryAccess]⟩ := by
      simp [Session.ensure_node, Session.inventoryGet, hinv, hc]
    rw [hstep]
    exact ⟨rfl, by simp⟩
  · intro hc
    have hstep : Session.ensure_yarn w s v = ⟨.ok (), s, [.inventoryAccess]⟩ := by
      simp [Session.ensure_yarn, Session.inventoryGet, hinv, hc]
    rw [hstep]
    exact ⟨rfl, by simp⟩

/-- Witness for C10 under a world whose hooks configuration is unloadable. -/
theorem c10_ensure_present_needs_no_hooks_witness :
    (Session.ensure_node wHooksBad sInvOnly v1).result = .ok () ∧
    Effect.hooksAccess ∉ (Session.ensure_node wHooksBad sInvOnly v1).trace ∧
    (Session.ensure_yarn wHooksBad sInvOnly v1).result = .ok () := by
  have h := c10_ensure_present_needs_no_hooks wHooksBad sInvOnly invTest v1 rfl
  have hn := h.1 (by decide)
  have hy := h.2 (by decide)
  exact ⟨hn.1, hn.2, hy.1⟩

/-- C9: install fetches first and then writes the resolved version into the
user toolchain as the new active version; on any failure, in particular a
fetch failure, the toolchain is left unchanged. -/
theorem c9_install_fetch_then_activate (w : World) (s : Session)
    (matching : VersionSpec) :
    (∀ e, (Session.install_node w s matching).result = .error e →
      (Session.install_node w s matching).session.toolchain = s.toolchain) ∧
    (∀ e, (Session.install_yarn w s matching).result = .error e →
      (Session.install_yarn w s matching).session.toolchain = s.toolchain) ∧
    (∀ inv hk f inv2, s.inventory = some inv → s.hooks = some hk →
      w.fetchNode matching hk inv = .ok (f, inv2) →
      Session.install_node w s matching =
        ⟨.ok (),
          { s with
              inventory := some inv2,
              toolchain := s.toolchain.set_active_node f.into_version },
          [.inventoryAccess, .hooksAccess, .fetchNodeCall matching,
            .setActiveNode f.into_version]⟩) ∧
    (∀ inv hk f inv2, s.inventory = some inv → s.hooks = some hk →
      w.fetchYarn matching hk inv = .ok (f, inv2) →
      Session.install_yarn w s matching =
        ⟨.ok (),
          { s with
              inventory := some inv2,
              toolchain := s.toolchain.set_active_yarn f.into_version },
          [.inventoryAccess, .hooksAccess, .fetchYarnCall matching,
            .setActiveYarn f.into_version]⟩) := by
  refine ⟨?_, ?_, ?_, ?_⟩
  · intro e herr
    rcases install_node_toolchain w s matching with h | h
    · exact h
    · rw [herr] at h
      exact absurd h (by simp)
  · intro e herr
    rcases install_yarn_toolchain w s matching with h | h
    · exact h
    · rw [herr] at h
      exact absurd h (by simp)
  · intro inv hk f inv2 hinv hhk hf
    simp [Session.install_node, Session.inventoryGet, Session.hooksGet, hinv, hhk, hf]
  · intro inv hk f inv2 hinv hhk hf
    simp [Session.install_yarn, Session.inventoryGet, Session.hooksGet, hinv, hhk, hf]

/-- Witness for C9: a successful install writes the fetched version, and a
failing fetch leaves the toolchain untouched. -/
theorem c9_install_fetch_then_activate_witness :
    Session.install_node wTest sCached (.req "10.x") =
      ⟨.ok (),
        { sCached with
            inventory := some invTest,
            toolchain := sCached.toolchain.set_active_node nodeV },
        [.inventoryAccess, .hooksAccess, .fetchNodeCall (.req "10.x"),
          .setActiveNode nodeV]⟩ ∧
    (Session.install_node wFetchFail sCached (.req "10.x")).session.toolchain =
      sCached.toolchain := by
  constructor
  · have h := (c9_install_fetch_then_activate wTest sCached (.req "10.x")).2.2.1
      invTest hooksPub (.now nodeV) invTest rfl rfl rfl
    rw [h]
    decide
  · exact (c9_install_fetch_then_activate wFetchFail sCached (.req "10.x")).1
      (.unknown "network down") (by decide)
